import Mathlib

/-! Shallow embedding of the JSON-validation error reporting utilities of
`dcos/util.py` and of the test HTTP helper `tests/util.py`, together with
theorems about their formatting, ordering and error-handling behavior.

Strings are modelled as `List Char`; Python exceptions are modelled by
`Except`/`Option` results; the external collaborators (the JSON codec, the
schema-validation engine, the filesystem, the HTTP transport) are passed in
as explicit parameters, exactly as the spec designates them as external. -/

/-- Python's `\s` character class restricted to the ASCII range:
space, tab, newline, carriage return, vertical tab, form feed. -/
def isPySpace (c : Char) : Bool :=
  c = ' ' || c = '\t' || c = '\n' || c = '\r' || c = '\x0b' || c = '\x0c'

/-- The character class `[\[\(\{\s]` of the interior-marker regex in
`_hack_error_message_fix`: an opening square bracket, parenthesis, curly
brace, or whitespace. -/
def isTriggerChar (c : Char) : Bool :=
  c = '[' || c = '(' || c = '\x7b' || isPySpace c

/-- The inner pass of `_hack_error_message_fix`:
`re.compile("^u'").sub("'", message)` replaces a leading `u'` by `'`. -/
def stripLeadingU : List Char → List Char
  | [] => []
  | [c] => [c]
  | c :: d :: rest => if c = 'u' && d = '\'' then d :: rest else c :: d :: rest

/-- The outer pass of `_hack_error_message_fix`:
`re.compile("([\[\(\{\s])u'").sub("\g<1>'", s)` removes each `u` that sits
between a trigger character and a single quote, scanning left to right with
non-overlapping matches (the scan resumes after the consumed quote). -/
def stripInteriorU : List Char → List Char
  | [] => []
  | [c] => [c]
  | [c, d] => [c, d]
  | c :: d :: e :: rest =>
    if isTriggerChar c && d = 'u' && e = '\'' then
      c :: '\'' :: stripInteriorU rest
    else
      c :: stripInteriorU (d :: e :: rest)

/-- The message normalization `_hack_error_message_fix` of `dcos/util.py`:
first the leading-marker strip, then the interior-marker strip. -/
def _hack_error_message_fix (message : List Char) : List Char :=
  stripInteriorU (stripLeadingU message)

/-- Specification-side description of marker removal: walking the message
left to right, the character `u` is removed exactly when it stands
immediately before a single quote and either at start-of-string or right
after a whitespace character, `[`, `(` or the opening curly brace.  The flag
`q` records whether the previous position qualifies as such a boundary
(start of string, or a trigger character that was not itself consumed by a
removal). -/
def spec_marker_strip (q : Bool) : List Char → List Char
  | [] => []
  | [c] => [c]
  | c :: d :: rest =>
    if c = 'u' && d = '\'' then
      if q then '\'' :: spec_marker_strip false rest
      else 'u' :: '\'' :: spec_marker_strip false rest
    else
      c :: spec_marker_strip (isTriggerChar c) (d :: rest)

/-- Decides whether a message still holds an artifact marker: a `u`
immediately before a single quote, at start-of-string (when `q` is true) or
after a trigger character. -/
def hasMarker (q : Bool) : List Char → Bool
  | [] => false
  | [_] => false
  | c :: d :: rest =>
    if c = 'u' && d = '\'' then
      if q then true else hasMarker false rest
    else
      hasMarker (isTriggerChar c) (d :: rest)

/-- A JSON value, the model of the values the Python `json` module handles
here (floats are not exercised by this component). -/
inductive JVal where
  | null
  | bool (b : Bool)
  | num (n : Int)
  | str (s : List Char)
  | arr (elems : List JVal)
  | obj (fields : List (List Char × JVal))

/-- Lowercase hexadecimal digit, as produced by Python's `json.dumps`
escapes. -/
def hexDigit (n : Nat) : Char :=
  if n < 10 then Char.ofNat (48 + n) else Char.ofNat (87 + n)

/-- Four-digit hexadecimal rendition used inside a `\uXXXX` escape. -/
def hex4 (n : Nat) : List Char :=
  [hexDigit (n / 4096 % 16), hexDigit (n / 256 % 16), hexDigit (n / 16 % 16),
    hexDigit (n % 16)]

/-- Escaping of one character inside a JSON string literal, following
`json.dumps` with its default `ensure_ascii=True`: the two-character escapes
for quote, backslash and common control characters, `\u00XX` for the other
control characters, `\uXXXX` for non-ASCII characters, and a surrogate pair
for characters beyond the basic multilingual plane. -/
def escapeChar (c : Char) : List Char :=
  if c = '"' then [ '\\', '"' ]
  else if c = '\\' then [ '\\', '\\' ]
  else if c = '\n' then [ '\\', 'n' ]
  else if c = '\t' then [ '\\', 't' ]
  else if c = '\r' then [ '\\', 'r' ]
  else if c = '\x08' then [ '\\', 'b' ]
  else if c = '\x0c' then [ '\\', 'f' ]
  else if c.toNat < 32 then '\\' :: 'u' :: hex4 c.toNat
  else if c.toNat < 128 then [c]
  else if c.toNat < 65536 then '\\' :: 'u' :: hex4 c.toNat
  else
    ('\\' :: 'u' :: hex4 (55296 + (c.toNat - 65536) / 1024)) ++
      ('\\' :: 'u' :: hex4 (56320 + (c.toNat - 65536) % 1024))

/-- A JSON string literal as `json.dumps` prints it. -/
def dumpStr (s : List Char) : List Char :=
  '"' :: (s.map escapeChar).flatten ++ [ '"' ]

mutual

/-- Serialization of a JSON value as Python's `json.dumps` prints it with
default arguments: separators `", "` and `": "`, `ensure_ascii=True`. -/
def dumps : JVal → List Char
  | .null => "null".data
  | .bool true => "true".data
  | .bool false => "false".data
  | .num n => (toString n).data
  | .str s => dumpStr s
  | .arr elems => '[' :: dumpsElems elems ++ [ ']' ]
  | .obj fields => '\x7b' :: dumpsFields fields ++ [ '\x7d' ]

/-- Array elements joined by `", "`. -/
def dumpsElems : List JVal → List Char
  | [] => []
  | [v] => dumps v
  | v :: w :: rest => dumps v ++ ", ".data ++ dumpsElems (w :: rest)

/-- Object entries `"key": value` joined by `", "`, in insertion order. -/
def dumpsFields : List (List Char × JVal) → List Char
  | [] => []
  | [(k, v)] => dumpStr k ++ ": ".data ++ dumps v
  | (k, v) :: f :: rest =>
    dumpStr k ++ ": ".data ++ dumps v ++ ", ".data ++ dumpsFields (f :: rest)

end

/-- One segment of a validation error's `absolute_path`: the schema engine
yields property names as strings and array indices as integers. -/
inductive PathSeg where
  | str (s : List Char)
  | idx (n : Nat)

/-- Python's `str.join(sep, items)` on a sequence of path segments: defined
only when every item is a string; a non-string item makes the call raise a
`TypeError`, modelled by `none`. -/
def pyStrJoin (sep : List Char) : List PathSeg → Option (List Char)
  | [] => some []
  | PathSeg.idx _ :: _ => none
  | [PathSeg.str s] => some s
  | PathSeg.str s :: p :: rest =>
    (pyStrJoin sep (p :: rest)).map (fun r => s ++ sep ++ r)

/-- Python's `str.join(sep, items)` on a sequence of plain strings. -/
def joinSegs (sep : List Char) : List (List Char) → List Char
  | [] => []
  | [s] => s
  | s :: p :: rest => s ++ sep ++ joinSegs sep (p :: rest)

/-- The literal part of the regular expression
`"(.+) is a required property"` used by `_format_validation_error`. -/
def reqPat : List Char := " is a required property".data

/-- True when no character of `msg` in the index range `[s, j)` is a
newline; `.` in a Python regex does not match a newline. -/
def noNewlineSeg (msg : List Char) (s j : Nat) : Bool :=
  ((msg.drop s).take (j - s)).all (fun c => !(c = '\n'))

/-- All end positions `j` at which a match of `(.+) is a required property`
that starts at `s` could place the literal part: the group `msg[s..j)` must
be non-empty and newline-free and `msg[j..]` must start with the literal.
The list is ascending, so its last element is the greedy choice. -/
def candEnds (msg : List Char) (s : Nat) : List Nat :=
  (List.range (msg.length + 1)).filter
    (fun j => decide (s < j) && noNewlineSeg msg s j &&
      reqPat.isPrefixOf (msg.drop j))

/-- Python's `re.search("(.+) is a required property", msg)`, returning
`group(1)` of the leftmost match, with the greedy `.+` taking the longest
group that still lets the literal part match. -/
def pyReqProp (msg : List Char) : Option (List Char) :=
  match (List.range msg.length).find? (fun s => !(candEnds msg s).isEmpty) with
  | none => none
  | some s => (candEnds msg s).getLast?.map (fun j => (msg.drop s).take (j - s))

/-- A validation error as yielded by the external schema engine: a message,
the absolute path from the document root, and the offending value
(`error.instance` in the source; `instance` is a reserved word here). -/
structure ValidationError where
  message : List Char
  absolute_path : List PathSeg
  inst : JVal

/-- The body of `_format_validation_error` of `dcos/util.py`.  The result is
`none` exactly when the Python code raises (the `'.'.join` of a path with a
non-string segment). -/
def _format_validation_error (error : ValidationError) : Option (List Char) :=
  let error_message := _hack_error_message_fix error.message
  match pyReqProp error_message with
  | some g => some ("Error: missing required property ".data ++ g ++ [ '.' ])
  | none =>
    let base := "Error: ".data ++ error_message ++ [ '\n' ]
    match error.absolute_path with
    | [] => some (base ++ "Value: ".data ++ dumps error.inst)
    | p :: rest =>
      (pyStrJoin [ '.' ] (p :: rest)).map
        (fun joined =>
          base ++ "Path: ".data ++ joined ++ [ '\n' ] ++
            "Value: ".data ++ dumps error.inst)

/-- The `sort_key` closure of `validate_json`: the cleaned message text. -/
def sort_key (ve : ValidationError) : List Char :=
  _hack_error_message_fix ve.message

/-- Lexicographic (code-point) comparison of two strings, the order Python
uses when sorting unicode strings. -/
def lexLe : List Char → List Char → Bool
  | [], _ => true
  | _ :: _, [] => false
  | a :: as, b :: bs =>
    if a.toNat < b.toNat then true
    else if b.toNat < a.toNat then false
    else lexLe as bs

/-- Comparison of two validation errors by their cleaned message, the order
`sorted(validation_errors, key=sort_key)` uses. -/
def errLe (a b : ValidationError) : Prop :=
  lexLe (sort_key a) (sort_key b) = true

instance : DecidableRel errLe := fun a b =>
  inferInstanceAs (Decidable (lexLe (sort_key a) (sort_key b) = true))

/-- The body of `validate_json` of `dcos/util.py`, past the call into the
external schema engine: the engine's raw error list is sorted (stably, as
Python's `sorted` is) by cleaned message and each error is formatted.  The
result is `none` exactly when some `_format_validation_error` call raises. -/
def validate_json (validation_errors : List ValidationError) :
    Option (List (List Char)) :=
  (validation_errors.insertionSort errLe).mapM _format_validation_error

/-- The body of `load_jsons` of `dcos/util.py`, with the external JSON codec
(`json.loads`) passed in as `codec`: a successful parse is returned, any
parse failure is logged and turned into `DCOSException('Error loading
JSON.')`, modelled as `Except.error` with that exact message. -/
def load_jsons (codec : List Char → Option JVal) (value : List Char) :
    Except (List Char) JVal :=
  match codec value with
  | some result => Except.ok result
  | none => Except.error "Error loading JSON.".data

/-- The filesystem as `read_file` sees it: `os.path.isfile`, and the result
of opening and reading a path (`Except.error ()` standing for an
`IOError`). -/
structure FileSystem where
  is_file : List Char → Bool
  read_contents : List Char → Except Unit (List Char)

/-- The body of `read_file` of `dcos/util.py` over an explicit filesystem:
a path that is not a regular file raises `DCOSException('Path [..] is not a
file')`; an `IOError` while opening or reading raises
`DCOSException('Unable to open file [..]')`; otherwise the contents are
returned. -/
def read_file (fs : FileSystem) (path : List Char) :
    Except (List Char) (List Char) :=
  if fs.is_file path then
    match fs.read_contents path with
    | Except.ok contents => Except.ok contents
    | Except.error _ =>
      Except.error ("Unable to open file [".data ++ path ++ "]".data)
  else
    Except.error ("Path [".data ++ path ++ "] is not a file".data)

/-- The body of `list_to_err` of `dcos/util.py`:
`str.join('\n\n', errs)`. -/
def list_to_err (errs : List (List Char)) : List Char :=
  joinSegs "\n\n".data errs

/-- True when `needle` occurs as a contiguous substring of `haystack`. -/
def containsSub (needle haystack : List Char) : Bool :=
  (List.range (haystack.length + 1)).any
    (fun i => needle.isPrefixOf (haystack.drop i))

namespace ServerRequest

/-- The class attribute `_base_url` of `ServerRequest` in
`tests/util.py`. -/
def base_url : List Char := "/v2/apps/".data

/-- The URL that `_req` builds: `"/".join(u)` where `u` is the base URL
optionally followed by the extra segment. -/
def requestUrl (url : Option (List Char)) : List Char :=
  match url with
  | none => joinSegs "/".data [base_url]
  | some x => joinSegs "/".data [base_url, x]

/-- The body of `ServerRequest._req` of `tests/util.py`, with the HTTP
transport (`requests.<method>(..)` returning a response body) and the JSON
codec (`response.json()`) passed in: a body that fails to decode raises
`ValueError` inside `.json()`, which the `except ValueError` clause turns
into a silent `None`. -/
def req (codec : List Char → Option JVal) (fetch : List Char → List Char)
    (url : Option (List Char)) : Option JVal :=
  codec (fetch (requestUrl url))

end ServerRequest

theorem trigger_ne_u {c : Char} (h : isTriggerChar c = true) : c ≠ 'u' := by
  intro he
  subst he
  exact absurd h (by decide)

theorem spec_strip_quote (q : Bool) (r : List Char) :
    spec_marker_strip q ('\'' :: r) = '\'' :: spec_marker_strip false r := by
  cases r with
  | nil => simp [spec_marker_strip]
  | cons d r' => simp [spec_marker_strip, isTriggerChar, isPySpace]

theorem spec_strip_q_irrelevant (c d : Char) (rest : List Char)
    (h : ¬(c = 'u' ∧ d = '\'')) :
    spec_marker_strip true (c :: d :: rest) =
      spec_marker_strip false (c :: d :: rest) := by
  have hb : (decide (c = 'u') && decide (d = '\'')) = false := by
    rcases Decidable.em (c = 'u') with hc | hc
    · rcases Decidable.em (d = '\'') with hd | hd
      · exact absurd ⟨hc, hd⟩ h
      · simp [hd]
    · simp [hc]
  simp [spec_marker_strip, hb]

theorem stripInteriorU_eq_spec (l : List Char) :
    stripInteriorU l = spec_marker_strip false l := by
  induction l using stripInteriorU.induct with
  | case1 => simp [stripInteriorU, spec_marker_strip]
  | case2 c => simp [stripInteriorU, spec_marker_strip]
  | case3 c d =>
    by_cases hcd : c = 'u' ∧ d = '\''
    · obtain ⟨hc, hd⟩ := hcd
      subst hc
      subst hd
      simp [stripInteriorU, spec_marker_strip]
    · have hb : (decide (c = 'u') && decide (d = '\'')) = false := by
        rcases Decidable.em (c = 'u') with hc | hc
        · rcases Decidable.em (d = '\'') with hd | hd
          · exact absurd ⟨hc, hd⟩ hcd
          · simp [hd]
        · simp [hc]
      simp [stripInteriorU, spec_marker_strip, hb]
  | case4 c d e rest hmatch ih =>
    have hne : c ≠ 'u' := by
      have ht : isTriggerChar c = true := by
        rcases Bool.and_eq_true_iff.mp hmatch with ⟨h1, _⟩
        exact (Bool.and_eq_true_iff.mp h1).1
      exact trigger_ne_u ht
    rcases Bool.and_eq_true_iff.mp hmatch with ⟨h1, he⟩
    rcases Bool.and_eq_true_iff.mp h1 with ⟨ht, hd⟩
    have hd' : d = 'u' := of_decide_eq_true hd
    have he' : e = '\'' := of_decide_eq_true he
    subst hd'
    subst he'
    rw [stripInteriorU]
    simp only [hmatch, if_pos rfl]
    rw [spec_marker_strip]
    simp [hne, ht, spec_marker_strip, ih]
  | case5 c d e rest hmatch ih =>
    have hm : (isTriggerChar c && decide (d = 'u') && decide (e = '\'')) =
        false := by
      revert hmatch
      cases isTriggerChar c && decide (d = 'u') && decide (e = '\'') <;> simp
    have hLHS : stripInteriorU (c :: d :: e :: rest) =
        c :: stripInteriorU (d :: e :: rest) := by
      rw [stripInteriorU, hm]
      simp
    by_cases hcd : c = 'u' ∧ d = '\''
    · obtain ⟨hc, hd⟩ := hcd
      subst hc
      subst hd
      rw [hLHS, ih]
      conv_rhs => rw [spec_marker_strip]
      simp
      exact spec_strip_quote false (e :: rest)
    · have hb : (decide (c = 'u') && decide (d = '\'')) = false := by
        rcases Decidable.em (c = 'u') with hc | hc
        · rcases Decidable.em (d = '\'') with hd | hd
          · exact absurd ⟨hc, hd⟩ hcd
          · simp [hd]
        · simp [hc]
      rw [hLHS, ih]
      conv_rhs => rw [spec_marker_strip]
      rw [hb]
      simp only [Bool.false_eq_true, if_false]
      by_cases ht : isTriggerChar c = true
      · have hde : ¬(d = 'u' ∧ e = '\'') := by
          intro hde
          obtain ⟨hd, he⟩ := hde
          subst hd
          subst he
          rw [ht] at hm
          simp at hm
        rw [ht, spec_strip_q_irrelevant d e rest hde]
      · have ht' : isTriggerChar c = false := by
          revert ht
          cases isTriggerChar c <;> simp
        rw [ht']

theorem hack_fix_eq_spec (msg : List Char) :
    _hack_error_message_fix msg = spec_marker_strip true msg := by
  match msg with
  | [] => simp [_hack_error_message_fix, stripLeadingU, stripInteriorU,
      spec_marker_strip]
  | [c] => simp [_hack_error_message_fix, stripLeadingU, stripInteriorU,
      spec_marker_strip]
  | c :: d :: rest =>
    by_cases hcd : c = 'u' ∧ d = '\''
    · obtain ⟨hc, hd⟩ := hcd
      subst hc
      subst hd
      have h1 : stripLeadingU ('u' :: '\'' :: rest) = '\'' :: rest := by
        simp [stripLeadingU]
      rw [_hack_error_message_fix, h1, stripInteriorU_eq_spec,
        spec_strip_quote]
      conv_rhs => rw [spec_marker_strip]
      simp
    · have hb : (decide (c = 'u') && decide (d = '\'')) = false := by
        rcases Decidable.em (c = 'u') with hc | hc
        · rcases Decidable.em (d = '\'') with hd | hd
          · exact absurd ⟨hc, hd⟩ hcd
          · simp [hd]
        · simp [hc]
      have h1 : stripLeadingU (c :: d :: rest) = c :: d :: rest := by
        rw [stripLeadingU, hb]
        simp
      rw [_hack_error_message_fix, h1, stripInteriorU_eq_spec,
        spec_strip_q_irrelevant c d rest hcd]

theorem no_marker_spec_id (q : Bool) (l : List Char)
    (h : hasMarker q l = false) : spec_marker_strip q l = l := by
  induction q, l using hasMarker.induct with
  | case1 q => simp [spec_marker_strip]
  | case2 q c => simp [spec_marker_strip]
  | case3 c d rest hcd =>
    rw [hasMarker, hcd] at h
    simp at h
  | case4 q c d rest hcd hq ih =>
    have hq' : q = false := by
      revert hq
      cases q <;> simp
    subst hq'
    rw [hasMarker, hcd] at h
    simp at h
    rcases Bool.and_eq_true_iff.mp hcd with ⟨hc, hd⟩
    have hc' : c = 'u' := of_decide_eq_true hc
    have hd' : d = '\'' := of_decide_eq_true hd
    subst hc'
    subst hd'
    rw [spec_marker_strip, hcd]
    simp [ih h]
  | case5 q c d rest hcd ih =>
    have hm : (decide (c = 'u') && decide (d = '\'')) = false := by
      revert hcd
      cases decide (c = 'u') && decide (d = '\'') <;> simp
    rw [hasMarker, hm] at h
    simp only [Bool.false_eq_true, if_false] at h
    rw [spec_marker_strip, hm]
    simp only [Bool.false_eq_true, if_false]
    rw [ih h]

theorem char_toNat_inj {a b : Char} (h : a.toNat = b.toNat) : a = b :=
  Char.ext (UInt32.ext h)

theorem lexLe_refl (a : List Char) : lexLe a a = true := by
  induction a with
  | nil => rfl
  | cons x xs ih => simp [lexLe, Nat.lt_irrefl, ih]

theorem lexLe_total (a b : List Char) : lexLe a b = true ∨ lexLe b a = true := by
  induction a generalizing b with
  | nil => exact Or.inl rfl
  | cons x xs ih =>
    cases b with
    | nil => exact Or.inr rfl
    | cons y ys =>
      rcases Nat.lt_trichotomy x.toNat y.toNat with hlt | heq | hgt
      · exact Or.inl (by simp [lexLe, hlt])
      · have hnlt : ¬x.toNat < y.toNat := by omega
        have hnlt' : ¬y.toNat < x.toNat := by omega
        rcases ih ys with h | h
        · exact Or.inl (by simp [lexLe, hnlt, hnlt', h])
        · exact Or.inr (by simp [lexLe, hnlt, hnlt', h])
      · exact Or.inr (by simp [lexLe, hgt])

theorem lexLe_trans {a b c : List Char} (h1 : lexLe a b = true)
    (h2 : lexLe b c = true) : lexLe a c = true := by
  induction a generalizing b c with
  | nil => rfl
  | cons x xs ih =>
    cases b with
    | nil => simp [lexLe] at h1
    | cons y ys =>
      cases c with
      | nil => simp [lexLe] at h2
      | cons z zs =>
        rw [lexLe] at h1 h2 ⊢
        rcases Nat.lt_trichotomy x.toNat y.toNat with hxy | hxy | hxy
        · rcases Nat.lt_trichotomy y.toNat z.toNat with hyz | hyz | hyz
          · have : x.toNat < z.toNat := by omega
            simp [this]
          · have : x.toNat < z.toNat := by omega
            simp [this]
          · have hnyz : ¬y.toNat < z.toNat := by omega
            simp only [if_neg hnyz, if_pos hyz] at h2
            exact absurd h2 (by decide)
        · rcases Nat.lt_trichotomy y.toNat z.toNat with hyz | hyz | hyz
          · have : x.toNat < z.toNat := by omega
            simp [this]
          · have hne1 : ¬x.toNat < z.toNat := by omega
            have hne2 : ¬z.toNat < x.toNat := by omega
            simp only [if_neg hne1, if_neg hne2]
            have ha : ¬x.toNat < y.toNat := by omega
            have hb : ¬y.toNat < x.toNat := by omega
            simp only [if_neg ha, if_neg hb] at h1
            have hc : ¬y.toNat < z.toNat := by omega
            have hd : ¬z.toNat < y.toNat := by omega
            simp only [if_neg hc, if_neg hd] at h2
            exact ih h1 h2
          · have hnyz : ¬y.toNat < z.toNat := by omega
            simp only [if_neg hnyz, if_pos hyz] at h2
            exact absurd h2 (by decide)
        · have hna : ¬x.toNat < y.toNat := by omega
          simp [hna, hxy] at h1

theorem lexLe_antisymm {a b : List Char} (h1 : lexLe a b = true)
    (h2 : lexLe b a = true) : a = b := by
  induction a generalizing b with
  | nil =>
    cases b with
    | nil => rfl
    | cons y ys => simp [lexLe] at h2
  | cons x xs ih =>
    cases b with
    | nil => simp [lexLe] at h1
    | cons y ys =>
      rw [lexLe] at h1 h2
      rcases Nat.lt_trichotomy x.toNat y.toNat with hxy | hxy | hxy
      · simp [Nat.lt_asymm hxy, hxy] at h2
      · have ha : ¬x.toNat < y.toNat := by omega
        have hb : ¬y.toNat < x.toNat := by omega
        simp only [if_neg ha, if_neg hb] at h1 h2
        rw [char_toNat_inj hxy, ih h1 h2]
      · simp [Nat.lt_asymm hxy, hxy] at h1

instance : IsTotal ValidationError errLe :=
  ⟨fun a b => lexLe_total (sort_key a) (sort_key b)⟩

instance : IsTrans ValidationError errLe :=
  ⟨fun _ _ _ h1 h2 => lexLe_trans h1 h2⟩

theorem sorted_perm_unique {α : Type} {R : α → α → Prop} :
    ∀ {l₁ l₂ : List α}, l₁.Perm l₂ → l₁.Pairwise R → l₂.Pairwise R →
      (∀ a ∈ l₁, ∀ b ∈ l₁, R a b → R b a → a = b) → l₁ = l₂ := by
  intro l₁
  induction l₁ with
  | nil =>
    intro l₂ hp _ _ _
    exact hp.symm.eq_nil.symm
  | cons a t ih =>
    intro l₂ hp h₁ h₂ hanti
    cases l₂ with
    | nil => exact absurd hp.eq_nil (by simp)
    | cons b t₂ =>
      have hab : a = b := by
        have ha₂ : a ∈ b :: t₂ := hp.subset (List.mem_cons_self a t)
        rcases List.mem_cons.mp ha₂ with h | ha₂
        · exact h
        · have hRba : R b a := (List.pairwise_cons.mp h₂).1 a ha₂
          have hb₁ : b ∈ a :: t := hp.symm.subset (List.mem_cons_self b t₂)
          rcases List.mem_cons.mp hb₁ with h | hb₁
          · exact h.symm
          · have hRab : R a b := (List.pairwise_cons.mp h₁).1 b hb₁
            exact hanti a (List.mem_cons_self a t) b
              (List.mem_cons_of_mem a hb₁) hRab hRba
      subst hab
      have hp' : t.Perm t₂ := hp.cons_inv
      rw [ih hp' h₁.of_cons h₂.of_cons
        (fun x hx y hy => hanti x (List.mem_cons_of_mem a hx) y
          (List.mem_cons_of_mem a hy))]

theorem insertionSort_key_inj_eq (l₁ l₂ : List ValidationError)
    (hperm : l₁.Perm l₂)
    (hinj : ∀ a ∈ l₁, ∀ b ∈ l₁, sort_key a = sort_key b → a = b) :
    l₁.insertionSort errLe = l₂.insertionSort errLe := by
  have hp : (l₁.insertionSort errLe).Perm (l₂.insertionSort errLe) :=
    (List.perm_insertionSort errLe l₁).trans
      (hperm.trans (List.perm_insertionSort errLe l₂).symm)
  refine sorted_perm_unique hp (List.sorted_insertionSort errLe l₁)
    (List.sorted_insertionSort errLe l₂) ?_
  intro a ha b hb hab hba
  have ha' : a ∈ l₁ := (List.mem_insertionSort errLe).mp ha
  have hb' : b ∈ l₁ := (List.mem_insertionSort errLe).mp hb
  exact hinj a ha' b hb' (lexLe_antisymm hab hba)

theorem pyStrJoin_map_str (sep : List Char) (path : List (List Char)) :
    pyStrJoin sep (path.map PathSeg.str) = some (joinSegs sep path) := by
  induction path with
  | nil => rfl
  | cons s rest ih =>
    cases rest with
    | nil => rfl
    | cons p rest' =>
      simp only [List.map_cons] at ih ⊢
      rw [pyStrJoin, ih]
      rfl

theorem pyStrJoin_none_of_idx (sep : List Char) (path : List PathSeg)
    (h : ∃ n, PathSeg.idx n ∈ path) : pyStrJoin sep path = none := by
  induction path with
  | nil =>
    obtain ⟨n, hn⟩ := h
    simp at hn
  | cons p rest ih =>
    obtain ⟨n, hn⟩ := h
    cases p with
    | idx m => rw [pyStrJoin]
    | str s =>
      have hrest : PathSeg.idx n ∈ rest := by
        rcases List.mem_cons.mp hn with he | he
        · exact absurd he (by simp)
        · exact he
      cases rest with
      | nil => simp at hrest
      | cons p' rest' =>
        rw [pyStrJoin, ih ⟨n, hrest⟩]
        rfl

theorem pyStrJoin_some_of_str (sep : List Char) (path : List PathSeg)
    (h : ∀ seg ∈ path, ∃ s, seg = PathSeg.str s) :
    ∃ out, pyStrJoin sep path = some out := by
  induction path with
  | nil => exact ⟨[], rfl⟩
  | cons p rest ih =>
    obtain ⟨s, rfl⟩ := h p (List.mem_cons_self p rest)
    cases rest with
    | nil => exact ⟨s, rfl⟩
    | cons p' rest' =>
      obtain ⟨out, hout⟩ :=
        ih (fun seg hseg => h seg (List.mem_cons_of_mem _ hseg))
      refine ⟨s ++ sep ++ out, ?_⟩
      rw [pyStrJoin, hout]
      rfl

/-- C3: a validation error whose cleaned message matches the pattern
`(.+) is a required property` is formatted as exactly
`Error: missing required property <X>.` with no Path line and no Value
line. -/
theorem format_required (e : ValidationError) (g : List Char)
    (hreq : pyReqProp (_hack_error_message_fix e.message) = some g) :
    _format_validation_error e =
      some ("Error: missing required property ".data ++ g ++ [ '.' ]) := by
  unfold _format_validation_error
  simp only []
  rw [hreq]

/-- C2: a validation error whose cleaned message does not match the
required-property pattern is formatted as `Error: <cleaned message>`,
newline, then — only when the absolute path is non-empty — `Path: <segments
joined by '.'>`, newline, then `Value: <offending value as JSON>`; with an
empty path the Path line is omitted entirely. -/
theorem format_generic (msg : List Char) (path : List (List Char)) (v : JVal)
    (hreq : pyReqProp (_hack_error_message_fix msg) = none) :
    _format_validation_error ⟨msg, path.map PathSeg.str, v⟩ =
      some ("Error: ".data ++ _hack_error_message_fix msg ++ [ '\n' ] ++
        (if path = [] then []
          else "Path: ".data ++ joinSegs [ '.' ] path ++ [ '\n' ]) ++
        "Value: ".data ++ dumps v) := by
  unfold _format_validation_error
  simp only []
  rw [hreq]
  cases path with
  | nil => simp
  | cons p rest =>
    simp only [List.map_cons]
    have hj : pyStrJoin [ '.' ] (PathSeg.str p :: List.map PathSeg.str rest) =
        some (joinSegs [ '.' ] (p :: rest)) := pyStrJoin_map_str [ '.' ] (p :: rest)
    rw [hj]
    simp

/-- C10: for a non-required-property message, formatting is total only on
errors whose absolute-path segments are all strings: a non-string segment
(an array index) makes the `'.'.join` raise, so no report entry is
produced; when every segment is a string an entry is always produced. -/
theorem format_path_partiality (msg : List Char) (path : List PathSeg)
    (v : JVal)
    (hreq : pyReqProp (_hack_error_message_fix msg) = none) :
    ((∃ n, PathSeg.idx n ∈ path) →
      _format_validation_error ⟨msg, path, v⟩ = none)
    ∧ ((∀ seg ∈ path, ∃ s, seg = PathSeg.str s) →
      ∃ out, _format_validation_error ⟨msg, path, v⟩ = some out) := by
  constructor
  · intro hidx
    unfold _format_validation_error
    simp only [hreq]
    cases path with
    | nil =>
      obtain ⟨n, hn⟩ := hidx
      simp at hn
    | cons p rest =>
      dsimp only
      rw [pyStrJoin_none_of_idx [ '.' ] (p :: rest) hidx]
      rfl
  · intro hstr
    unfold _format_validation_error
    simp only [hreq]
    cases path with
    | nil => exact ⟨_, rfl⟩
    | cons p rest =>
      obtain ⟨out, hout⟩ := pyStrJoin_some_of_str [ '.' ] (p :: rest) hstr
      dsimp only
      rw [hout]
      exact ⟨_, rfl⟩

/-- C4: the message normalization performs the leading-marker strip first
and the interior-marker strip second, and it removes a marker (the
character `u` before a single quote) exactly when the marker is immediately
adjacent to the quote and stands at start-of-string or after a whitespace
character, `[`, `(`, or the opening curly brace — and in no other
position, as captured by the single-pass spec description
`spec_marker_strip`. -/
theorem hack_error_message_fix_spec (msg : List Char) :
    _hack_error_message_fix msg = stripInteriorU (stripLeadingU msg)
    ∧ _hack_error_message_fix msg = spec_marker_strip true msg :=
  ⟨rfl, hack_fix_eq_spec msg⟩

/-- C8: a message with no artifact marker (no `u` immediately before a
single quote at start-of-string or after whitespace or an opening
bracket/paren/brace) is returned unchanged by the normalization, which is
therefore idempotent. -/
theorem hack_fix_clean_id (msg : List Char)
    (h : hasMarker true msg = false) :
    _hack_error_message_fix msg = msg :=
  (hack_fix_eq_spec msg).trans (no_marker_spec_id true msg h)

/-- Witness for C8 at the clean message `'old' is not of type 'integer'`. -/
theorem hack_fix_clean_id_wit :
    hasMarker true "'old' is not of type 'integer'".data = false
    ∧ _hack_error_message_fix "'old' is not of type 'integer'".data =
      "'old' is not of type 'integer'".data :=
  ⟨by decide, hack_fix_clean_id "'old' is not of type 'integer'".data
    (by decide)⟩

/-- A concrete error fixture with cleaned message `a`. -/
def errA : ValidationError := ⟨"a".data, [], JVal.null⟩

/-- A concrete error fixture with cleaned message `b`. -/
def errB : ValidationError := ⟨"b".data, [], JVal.null⟩

/-- A concrete error fixture: message `m`, offending value `1`. -/
def errTie1 : ValidationError := ⟨"m".data, [], JVal.num 1⟩

/-- A concrete error fixture: message `m`, offending value `2`. -/
def errTie2 : ValidationError := ⟨"m".data, [], JVal.num 2⟩

/-- C1 (counterexample): the output of `validate_json` is not independent
of the order in which the validation engine produced the errors — two
errors with identical cleaned messages but different offending values keep
the engine's order (the sort is stable), so swapping them swaps the two
formatted entries. -/
theorem validate_json_order_dependent :
    validate_json [errTie1, errTie2] ≠ validate_json [errTie2, errTie1] := by
  decide

/-- C1 (amended): the sorted error list is ordered ascending by cleaned
message (so entries with strictly smaller cleaned message come first), the
output formats the errors in that order, and the output is independent of
the engine's production order whenever the cleaned messages are pairwise
distinct; ties are kept in engine order by the stable sort. -/
theorem validate_json_sorted_and_stable (l₁ l₂ : List ValidationError)
    (hperm : l₁.Perm l₂)
    (hinj : ∀ a ∈ l₁, ∀ b ∈ l₁, sort_key a = sort_key b → a = b) :
    (l₁.insertionSort errLe).Pairwise errLe
    ∧ validate_json l₁ =
        (l₁.insertionSort errLe).mapM _format_validation_error
    ∧ validate_json l₁ = validate_json l₂ := by
  refine ⟨List.sorted_insertionSort errLe l₁, rfl, ?_⟩
  unfold validate_json
  rw [insertionSort_key_inj_eq l₁ l₂ hperm hinj]

/-- Witness for C1 (amended) on two errors with distinct cleaned messages,
presented to `validate_json` in the two possible orders. -/
theorem validate_json_sorted_and_stable_wit :
    validate_json [errB, errA] = validate_json [errA, errB] :=
  (validate_json_sorted_and_stable [errB, errA] [errA, errB]
    (List.Perm.swap errA errB [])
    (by
      intro a ha b hb hk
      have ha' : a = errB ∨ a = errA := by simpa using ha
      have hb' : b = errB ∨ b = errA := by simpa using hb
      rcases ha' with rfl | rfl <;> rcases hb' with rfl | rfl
      · rfl
      · exact absurd hk (by decide)
      · exact absurd hk (by decide)
      · rfl)).2.2

/-- Witness for C2 at the spec's example: schema type error on `age`. -/
theorem format_generic_wit :
    _format_validation_error
        ⟨"'old' is not of type 'integer'".data, [PathSeg.str "age".data],
          JVal.str "old".data⟩ =
      some "Error: 'old' is not of type 'integer'\nPath: age\nValue: \"old\"".data := by
  have h := format_generic "'old' is not of type 'integer'".data
    ["age".data] (JVal.str "old".data) (by decide)
  exact h.trans (by decide)

/-- Witness for C3 at an engine message quoting the property `name` with
double quotes: the entry is exactly
`Error: missing required property "name".`. -/
theorem format_required_wit :
    _format_validation_error
        ⟨"\"name\" is a required property".data, [], JVal.null⟩ =
      some "Error: missing required property \"name\".".data := by
  have h := format_required
    ⟨"\"name\" is a required property".data, [], JVal.null⟩
    "\"name\"".data (by decide)
  exact h.trans (by decide)

/-- Witness for C10 at a path holding the array index `0`. -/
theorem format_path_partiality_wit :
    _format_validation_error ⟨"m".data, [PathSeg.idx 0], JVal.null⟩ =
      none :=
  (format_path_partiality "m".data [PathSeg.idx 0] JVal.null (by decide)).1
    ⟨0, List.mem_cons_self _ _⟩

/-- A JSON codec that rejects every input: a concrete stand-in for
`json.loads` applied to text that is not valid JSON. -/
def failingCodec : List Char → Option JVal := fun _ => none

/-- C5 (counterexample): on the invalid JSON input `xyz` the raised
failure's message is the constant `Error loading JSON.`, which does not
contain the input snippet. -/
theorem load_jsons_msg_drops_input :
    load_jsons failingCodec "xyz".data =
      Except.error "Error loading JSON.".data
    ∧ containsSub "xyz".data "Error loading JSON.".data = false :=
  ⟨rfl, by decide⟩

/-- C5 (amended): every parse failure raises the typed failure
`DCOSException` with the fixed message `Error loading JSON.`; the offending
input is logged but not included in the message. -/
theorem load_jsons_error_constant (codec : List Char → Option JVal)
    (value : List Char) (h : codec value = none) :
    load_jsons codec value = Except.error "Error loading JSON.".data := by
  unfold load_jsons
  rw [h]

/-- Witness for C5 (amended). -/
theorem load_jsons_error_constant_wit :
    load_jsons failingCodec "xyz".data =
      Except.error "Error loading JSON.".data :=
  load_jsons_error_constant failingCodec "xyz".data rfl

theorem containsSub_append (s a b : List Char) :
    containsSub s (a ++ s ++ b) = true := by
  unfold containsSub
  rw [List.any_eq_true]
  refine ⟨a.length, ?_, ?_⟩
  · rw [List.mem_range]
    have h1 : (a ++ s ++ b).length = a.length + s.length + b.length := by
      simp
      omega
    omega
  · rw [List.append_assoc, List.drop_left]
    exact List.isPrefixOf_iff_prefix.mpr (List.prefix_append s b)

/-- C6: `read_file` raises a typed failure with the offending path in the
failure message exactly when the path does not name a regular file or the
file cannot be opened or read; on a readable regular file it returns the
contents without raising. -/
theorem read_file_spec (fs : FileSystem) (path : List Char) :
    ((∃ msg, read_file fs path = Except.error msg
        ∧ containsSub path msg = true)
      ↔ (fs.is_file path = false
        ∨ ∃ e, fs.read_contents path = Except.error e))
    ∧ (∀ contents, fs.is_file path = true →
        fs.read_contents path = Except.ok contents →
        read_file fs path = Except.ok contents) := by
  constructor
  · constructor
    · rintro ⟨msg, hmsg, _⟩
      by_cases hf : fs.is_file path = true
      · cases hrc : fs.read_contents path with
        | ok c =>
          unfold read_file at hmsg
          rw [if_pos hf, hrc] at hmsg
          exact absurd hmsg (by simp)
        | error e => exact Or.inr ⟨e, rfl⟩
      · refine Or.inl ?_
        revert hf
        cases fs.is_file path <;> simp
    · rintro (hf | ⟨e, he⟩)
      · refine ⟨"Path [".data ++ path ++ "] is not a file".data, ?_, ?_⟩
        · unfold read_file
          rw [hf]
          simp
        · exact containsSub_append path "Path [".data "] is not a file".data
      · by_cases hf : fs.is_file path = true
        · refine ⟨"Unable to open file [".data ++ path ++ "]".data, ?_, ?_⟩
          · unfold read_file
            rw [if_pos hf, he]
          · exact containsSub_append path "Unable to open file [".data
              "]".data
        · have hf' : fs.is_file path = false := by
            revert hf
            cases fs.is_file path <;> simp
          refine ⟨"Path [".data ++ path ++ "] is not a file".data, ?_, ?_⟩
          · unfold read_file
            rw [hf']
            simp
          · exact containsSub_append path "Path [".data "] is not a file".data
  · intro contents hf hrc
    unfold read_file
    rw [if_pos hf, hrc]

/-- A concrete filesystem on which the path `good` is a readable regular
file with contents `hello` and every other path is missing. -/
def demoFS : FileSystem :=
  ⟨fun p => p == "good".data,
    fun p => if p == "good".data then Except.ok "hello".data
      else Except.error ()⟩

/-- Witness for C6: a missing path fails with the path in the message, and
the readable regular file `good` yields its contents. -/
theorem read_file_spec_wit :
    (∃ msg, read_file demoFS "missing".data = Except.error msg
      ∧ containsSub "missing".data msg = true)
    ∧ read_file demoFS "good".data = Except.ok "hello".data :=
  ⟨(read_file_spec demoFS "missing".data).1.mpr (Or.inl (by decide)),
    (read_file_spec demoFS "good".data).2 "hello".data (by decide) rfl⟩

/-- C7: `list_to_err` joins the error strings with the two-character
separator newline-newline; a two-or-more-element list prepends the head and
the separator to the joined tail, a singleton is returned alone, the empty
list yields the empty string, and `["A", "B", "C"]` yields exactly
`A\n\nB\n\nC`. -/
theorem list_to_err_spec (a : List Char) (rest : List (List Char))
    (h : rest ≠ []) :
    list_to_err (a :: rest) = a ++ "\n\n".data ++ list_to_err rest
    ∧ list_to_err [a] = a
    ∧ list_to_err ([] : List (List Char)) = []
    ∧ list_to_err ["A".data, "B".data, "C".data] = "A\n\nB\n\nC".data := by
  refine ⟨?_, rfl, rfl, by decide⟩
  cases rest with
  | nil => exact absurd rfl h
  | cons p r => rfl

/-- Witness for C7 at the spec's example list. -/
theorem list_to_err_spec_wit :
    list_to_err ["A".data, "B".data, "C".data] =
      "A".data ++ "\n\n".data ++ list_to_err ["B".data, "C".data] :=
  (list_to_err_spec "A".data ["B".data, "C".data] (by decide)).1

/-- C9: the two JSON-decoding failure paths are inconsistent: on the same
body that fails to decode, `ServerRequest._req` silently returns `None`
(the `except ValueError` clause), while `load_jsons` raises the typed
failure `DCOSException('Error loading JSON.')`. -/
theorem req_swallows_load_jsons_raises (codec : List Char → Option JVal)
    (fetch : List Char → List Char) (url : Option (List Char))
    (h : codec (fetch (ServerRequest.requestUrl url)) = none) :
    ServerRequest.req codec fetch url = none
    ∧ load_jsons codec (fetch (ServerRequest.requestUrl url)) =
        Except.error "Error loading JSON.".data := by
  constructor
  · unfold ServerRequest.req
    exact h
  · unfold load_jsons
    rw [h]

/-- Witness for C9 with a concrete transport returning an undecodable
body. -/
theorem req_swallows_load_jsons_raises_wit :
    ServerRequest.req failingCodec (fun _ => "notjson".data) none = none
    ∧ load_jsons failingCodec
        ((fun _ => "notjson".data) (ServerRequest.requestUrl none)) =
      Except.error "Error loading JSON.".data :=
  req_swallows_load_jsons_raises failingCodec (fun _ => "notjson".data)
    none rfl
